import Mathlib

/-!
Verification of the airfoil geometry core of the algorithmicWing repository:
the NACA 4/5-digit cross-section generators (`nacaprofile.js`) and the
span-morph lofted mesh builder (`createSpanMorphGeometry` in the span-morph
UI module).  Real-valued arithmetic of the source (JS doubles) is embedded
over `ℝ`; the discrete structure (lists of points, index buffers, digit
parsing) is embedded executably.  A JS `NaN` produced by a failed
`parseInt` is modelled by `Option.none`.
-/

namespace AlgorithmicWing

/-- Numeric value of a decimal digit character. -/
def digitVal (c : Char) : ℕ :=
  c.toNat - '0'.toNat

/-- Value of the longest leading run of decimal digits; an empty run gives
`none`. -/
def digitRunVal (s : List Char) : Option ℕ :=
  let ds := s.takeWhile Char.isDigit
  if ds.isEmpty then none
  else some (ds.foldl (fun acc c => acc * 10 + digitVal c) 0)

/-- The ECMAScript WhiteSpace and LineTerminator code points, which
`parseInt` skips before the optional sign. -/
def jsWhitespace (c : Char) : Bool :=
  [0x09, 0x0A, 0x0B, 0x0C, 0x0D, 0x20, 0xA0, 0x1680, 0x2028, 0x2029,
    0x202F, 0x205F, 0x3000, 0xFEFF].contains c.toNat ||
    (0x2000 ≤ c.toNat && c.toNat ≤ 0x200A)

/-- JS `parseInt(s, 10)`: skip leading whitespace, accept one optional
`+`/`-` sign, then take the value of the longest run of decimal digits;
no digits gives `none`, modelling the `NaN` result (trailing non-digits
are ignored). -/
def jsParseInt (s : List Char) : Option ℤ :=
  let s1 := s.dropWhile jsWhitespace
  match s1 with
  | [] => none
  | c :: rest =>
    if c = '+' then (digitRunVal rest).map (fun v => (v : ℤ))
    else if c = '-' then (digitRunVal rest).map (fun v => -(v : ℤ))
    else (digitRunVal (c :: rest)).map (fun v => (v : ℤ))

/-- JS `String.prototype.padStart(k, '0')`: left-pad with zeros up to
length `k`; a longer string is returned unchanged (never truncated). -/
def padStartZero (k : ℕ) (s : List Char) : List Char :=
  List.replicate (k - s.length) '0' ++ s

/-- `parseNACA` from `nacaprofile.js`: pad the code to at least four
characters, then read `m = s[0]/100`, `p = s[1]/10`,
`t = parseInt(s.slice(2,4))/100`.  Each field is `none` exactly when the JS
original is `NaN`. -/
def parseNACA (code : String) : Option ℚ × Option ℚ × Option ℚ :=
  let s := padStartZero 4 code.data
  ((jsParseInt (s.take 1)).map (fun v : ℤ => (v : ℚ) / 100),
   (jsParseInt ((s.drop 1).take 1)).map (fun v : ℤ => (v : ℚ) / 10),
   (jsParseInt ((s.drop 2).take 2)).map (fun v : ℤ => (v : ℚ) / 100))

/-- Thickness half-width of the NACA 4-digit polynomial, as written in
`naca4Coordinates` (the 5-digit generator inlines the same formula with
`xf = x/chord`). -/
noncomputable def yt4 (t chord x : ℝ) : ℝ :=
  (t * chord / 0.2) *
    (0.2969 * Real.sqrt (x / chord) - 0.1260 * (x / chord) -
      0.3516 * (x / chord) ^ 2 + 0.2843 * (x / chord) ^ 3 -
      0.1015 * (x / chord) ^ 4)

open scoped Classical in
/-- Camber line value and slope `(yc, dyc_dx)` of the 4-digit generator:
zero when `p = 0`, a forward quadratic for `x/chord < p`, an aft quadratic
otherwise. -/
noncomputable def camber4 (m p chord x : ℝ) : ℝ × ℝ :=
  if p = 0 then (0, 0)
  else if x / chord < p then
    ((m / (p * p)) * (2 * p * (x / chord) - (x / chord) ^ 2) * chord,
     (2 * m / (p * p)) * (p - x / chord))
  else
    ((m / (1 - p) ^ 2) * (1 - 2 * p + 2 * p * (x / chord) - (x / chord) ^ 2) * chord,
     (2 * m / (1 - p) ^ 2) * (p - x / chord))

/-- Cosine-spaced chordwise sample `x = (1 - cos(i/n·π))/2 · chord`. -/
noncomputable def xSample (chord : ℝ) (n i : ℕ) : ℝ :=
  (1 - Real.cos ((i : ℝ) / (n : ℝ) * Real.pi)) / 2 * chord

/-- Upper-surface point of the 4-digit generator at sample `i`. -/
noncomputable def upperPoint (m p t chord : ℝ) (n i : ℕ) : ℝ × ℝ :=
  let x := xSample chord n i
  let yt := yt4 t chord x
  let c := camber4 m p chord x
  let theta := Real.arctan c.2
  (x - yt * Real.sin theta, c.1 + yt * Real.cos theta)

/-- Lower-surface point of the 4-digit generator at sample `i`. -/
noncomputable def lowerPoint (m p t chord : ℝ) (n i : ℕ) : ℝ × ℝ :=
  let x := xSample chord n i
  let yt := yt4 t chord x
  let c := camber4 m p chord x
  let theta := Real.arctan c.2
  (x + yt * Real.sin theta, c.1 - yt * Real.cos theta)

/-- Shift a point's x-coordinate by `-chord/2` (the centering map applied to
every output point). -/
noncomputable def shiftPt (chord : ℝ) (q : ℝ × ℝ) : ℝ × ℝ :=
  (q.1 - chord / 2, q.2)

/-- Body of `naca4Coordinates` after the parse: upper points for
`i = 0..n`, then the lower points reversed, then every x shifted by
`-chord/2`. -/
noncomputable def naca4Points (m p t chord : ℝ) (n : ℕ) : List (ℝ × ℝ) :=
  let ptsUpper := (List.range (n + 1)).map (upperPoint m p t chord n)
  let ptsLower := (List.range (n + 1)).map (lowerPoint m p t chord n)
  (ptsUpper ++ ptsLower.reverse).map (shiftPt chord)

/-- `naca4Coordinates(code, chord, n)`: parse the code and build the point
list; a parse producing any `NaN` field poisons the whole output (modelled
as `none`). -/
noncomputable def naca4Coordinates (code : String) (chord : ℝ) (n : ℕ) :
    Option (List (ℝ × ℝ)) :=
  match parseNACA code with
  | (some m, some p, some t) => some (naca4Points m p t chord n)
  | _ => none

/-- A `{r, k1}` / `{r, k1, k2/k1}` entry of the 5-digit camber tables;
`k2k1` is `none` for the standard (non-reflex) table, which has no such
field. -/
structure Naca5Entry where
  r : ℚ
  k1 : ℚ
  k2k1 : Option ℚ
deriving DecidableEq

/-- Standard (non-reflex) 5-digit camber table, keyed by `P·5`. -/
def standardTable : List (ℕ × Naca5Entry) :=
  [(5, ⟨0.10, 0.0580, none⟩),
   (10, ⟨0.20, 0.1260, none⟩),
   (15, ⟨0.30, 0.2025, none⟩),
   (20, ⟨0.40, 0.2900, none⟩),
   (25, ⟨0.50, 0.3910, none⟩)]

/-- Reflex 5-digit camber table, keyed by `P·5`. -/
def reflexTable : List (ℕ × Naca5Entry) :=
  [(10, ⟨0.20, 0.1300, some 0.000764⟩),
   (15, ⟨0.30, 0.2170, some 0.00677⟩),
   (20, ⟨0.40, 0.3180, some 0.0303⟩),
   (25, ⟨0.50, 0.4410, some 0.1355⟩)]

/-- Table-entry selection of `naca5Coordinates`:
`reflex[key] || reflex['15']` resp. `standard[key] || standard['15']`,
with `key = P·5`. -/
def naca5Entry (P : ℕ) (isReflex : Bool) : Naca5Entry :=
  let key := P * 5
  if isReflex then (reflexTable.lookup key).getD ⟨0.30, 0.2170, some 0.00677⟩
  else (standardTable.lookup key).getD ⟨0.30, 0.2025, none⟩

/-- The scaled `k1`: `entry.k1 · max(0, (Cl)/0.3)` with `Cl = L·3/20`
(the source's `(entry.k1 || 0)` guard is the identity on numbers, since
`0 || 0` is `0`). -/
def naca5K1 (L P : ℕ) (isReflex : Bool) : ℚ :=
  (naca5Entry P isReflex).k1 * max 0 (((L : ℚ) * 3 / 20) / 0.3)

/-- `k2 = (isReflex && entry.k2k1) ? k1 · entry.k2k1 : 0`, with JS
truthiness on `entry.k2k1` (absent field or zero value gives 0). -/
def naca5K2 (L P : ℕ) (isReflex : Bool) : ℚ :=
  match (naca5Entry P isReflex).k2k1 with
  | some v => if isReflex ∧ v ≠ 0 then naca5K1 L P isReflex * v else 0
  | none => 0

/-- The digit characters of a string, in order (JS
`replace(/\D/g, '')`). -/
def digitsOnly (s : String) : List Char :=
  s.data.filter Char.isDigit

/-- Field extraction of `naca5Coordinates`: digits-only, pad to five, then
`L = s[0]`, `P = s[1]`, `Q = s[2]`, `t = parseInt(s.slice(3,5))/100`.
Every character of the padded string is a digit, so no parse can fail. -/
def naca5Fields (code : String) : ℕ × ℕ × ℕ × ℚ :=
  let s := padStartZero 5 (digitsOnly code)
  (digitVal (s.getD 0 '0'), digitVal (s.getD 1 '0'), digitVal (s.getD 2 '0'),
   ((digitVal (s.getD 3 '0') * 10 + digitVal (s.getD 4 '0') : ℕ) : ℚ) / 100)

open scoped Classical in
/-- `yc_and_dyc` of the 5-digit generator: `(yc, dyc)` at chord fraction
`x`, piecewise at `r`, with the reflex term guarded by JS truthiness of
`k2`. -/
noncomputable def yc5 (k1 k2 r x : ℝ) : ℝ × ℝ :=
  if x < r then
    ((k1 / 6) * (x ^ 3 - 3 * r * x ^ 2 + r ^ 2 * (3 - r) * x) +
       (if k2 ≠ 0 then (k2 / 6) * (1 - x) ^ 3 else 0),
     (k1 / 6) * (3 * x ^ 2 - 6 * r * x + r ^ 2 * (3 - r)) -
       (if k2 ≠ 0 then (k2 / 2) * (1 - x) ^ 2 else 0))
  else
    ((k1 / 6) * r ^ 3 * (1 - x) + (if k2 ≠ 0 then (k2 / 6) * (1 - x) ^ 3 else 0),
     -((k1 / 6) * r ^ 3) - (if k2 ≠ 0 then (k2 / 2) * (1 - x) ^ 2 else 0))

/-- Upper-surface point of the 5-digit generator at sample `i` (its inlined
thickness formula over `xf = x/chord` is literally `yt4`). -/
noncomputable def upperPoint5 (k1 k2 r t chord : ℝ) (n i : ℕ) : ℝ × ℝ :=
  let x := xSample chord n i
  let yt := yt4 t chord x
  let c := yc5 k1 k2 r (x / chord)
  let theta := Real.arctan c.2
  (x - yt * Real.sin theta, c.1 * chord + yt * Real.cos theta)

/-- Lower-surface point of the 5-digit generator at sample `i`. -/
noncomputable def lowerPoint5 (k1 k2 r t chord : ℝ) (n i : ℕ) : ℝ × ℝ :=
  let x := xSample chord n i
  let yt := yt4 t chord x
  let c := yc5 k1 k2 r (x / chord)
  let theta := Real.arctan c.2
  (x + yt * Real.sin theta, c.1 * chord - yt * Real.cos theta)

/-- `naca5Coordinates(code, chord, n)`: select the table entry, scale
`k1`/`k2`, sample the surfaces, and return upper points followed by the
reversed lower points, x-shifted by `-chord/2`. -/
noncomputable def naca5Coordinates (code : String) (chord : ℝ) (n : ℕ) :
    List (ℝ × ℝ) :=
  let f := naca5Fields code
  let isReflex : Bool := f.2.2.1 = 1
  let entry := naca5Entry f.2.1 isReflex
  let r : ℝ := (entry.r : ℝ)
  let k1 : ℝ := (naca5K1 f.1 f.2.1 isReflex : ℝ)
  let k2 : ℝ := (naca5K2 f.1 f.2.1 isReflex : ℝ)
  let t : ℝ := (f.2.2.2 : ℝ)
  let ptsUpper := (List.range (n + 1)).map (upperPoint5 k1 k2 r t chord n)
  let ptsLower := (List.range (n + 1)).map (lowerPoint5 k1 k2 r t chord n)
  (ptsUpper ++ ptsLower.reverse).map (shiftPt chord)

/-- The generator dispatch of the span-morph module: use the 5-digit
generator exactly when the digits-only form of the code has length five,
else the 4-digit generator. -/
noncomputable def generateCrossSection (code : String) (chord : ℝ) (n : ℕ) :
    Option (List (ℝ × ℝ)) :=
  if (digitsOnly code).length = 5 then some (naca5Coordinates code chord n)
  else naca4Coordinates code chord n

open scoped Classical in
/-- Closing-point de-duplication of `createSpanMorphGeometry`: when the
list has more than one point and first/last agree within `1e-9` in both
coordinates, drop the last point. -/
noncomputable def dedupClosed (shape : List (ℝ × ℝ)) : List (ℝ × ℝ) :=
  if 1 < shape.length then
    let f := shape.getD 0 (0, 0)
    let l := shape.getD (shape.length - 1) (0, 0)
    if |f.1 - l.1| < 1e-9 ∧ |f.2 - l.2| < 1e-9 then shape.dropLast else shape
  else shape

/-- Span station `z = -span/2 + alpha·span`, `alpha = s/(slices-1)`
(`alpha = 0` when `slices = 1`). -/
noncomputable def stationZ (span : ℝ) (slices s : ℕ) : ℝ :=
  let alpha : ℝ := if slices = 1 then 0 else (s : ℝ) / ((slices : ℝ) - 1)
  let z : ℝ := -(span / 2) + alpha * span
  z

open scoped Classical in
/-- Morph progress of a station:
`t = z <= startZ ? 0 : (denom <= 0 ? 1 : clamp((z-startZ)/denom, 0, 1))`
with `denom = span/2 - startZ`. -/
noncomputable def tProgress (span startZ z : ℝ) : ℝ :=
  let denom := span / 2 - startZ
  if z ≤ startZ then 0
  else if denom ≤ 0 then 1
  else max 0 (min 1 ((z - startZ) / denom))

/-- Per-station transform of one cross-section point: isotropic scale by
`1 + (thicknessFactor-1)·t`, chordwise shift `t·maxShiftAbs`, dihedral
offset `t·dihedralTan·(z-startZ)`. -/
noncomputable def morphPoint (scale thicknessFactor maxShiftAbs dihedralTan startZ t z : ℝ)
    (p : ℝ × ℝ) : ℝ × ℝ × ℝ :=
  let localScale := 1 + (thicknessFactor - 1) * t
  let shift := t * maxShiftAbs
  let dihedralOffset := t * dihedralTan * (z - startZ)
  (p.1 * scale * localScale + shift, p.2 * scale * localScale + dihedralOffset, z)

/-- `startZ = -half + Math.max(0, Math.min(1, startPercent)) * span`, the
span position where morphing begins. -/
noncomputable def startZVal (span startPercent : ℝ) : ℝ :=
  -(span / 2) + max 0 (min 1 startPercent) * span

/-- The position buffer of `createSpanMorphGeometry` (as a list of vertex
triples): all `slices` stations of the de-duplicated shape, then the
root-center and tip-center apex vertices. -/
noncomputable def morphPositions (shape : List (ℝ × ℝ)) (scale chord depth : ℝ)
    (startPercent thicknessFactor : ℝ) (slices : ℕ)
    (shiftAmount dihedralAngle : ℝ) : List (ℝ × ℝ × ℝ) :=
  let span := depth * scale
  let half := span / 2
  let startZ := startZVal span startPercent
  let maxShiftAbs := shiftAmount * chord * scale
  let dihedralTan := Real.tan dihedralAngle
  ((List.range slices).flatMap fun s =>
      let z := stationZ span slices s
      let t := tProgress span startZ z
      shape.map (morphPoint scale thicknessFactor maxShiftAbs dihedralTan startZ t z))
    ++ [(0, 0, -half), (maxShiftAbs, dihedralTan * (half - startZ), half)]

/-- Side-wall triangles: for each adjacent station pair and each edge
`(j, j+1 mod N)`, the two quad triangles. -/
def sideIndices (N slices : ℕ) : List ℕ :=
  (List.range (slices - 1)).flatMap fun s =>
    (List.range N).flatMap fun j =>
      let j2 := (j + 1) % N
      [s * N + j, (s + 1) * N + j, (s + 1) * N + j2,
       s * N + j, (s + 1) * N + j2, s * N + j2]

/-- Root-cap fan to the root-center apex (index `slices·N`), reversed
winding. -/
def rootCapIndices (N slices : ℕ) : List ℕ :=
  (List.range N).flatMap fun j => [slices * N, (j + 1) % N, j]

/-- Tip-cap fan to the tip-center apex (index `slices·N + 1`). -/
def tipCapIndices (N slices : ℕ) : List ℕ :=
  (List.range N).flatMap fun j =>
    [slices * N + 1, (slices - 1) * N + j, (slices - 1) * N + (j + 1) % N]

/-- The flat index buffer of `createSpanMorphGeometry`. -/
def morphIndices (N slices : ℕ) : List ℕ :=
  sideIndices N slices ++ rootCapIndices N slices ++ tipCapIndices N slices

/-- `createSpanMorphGeometry`, from the point where the generated 2D
cross-section is in hand: de-duplicate the closing point, then build the
position and index buffers. -/
noncomputable def createSpanMorphGeometry (shape2D : List (ℝ × ℝ))
    (scale chord depth : ℝ) (startPercent thicknessFactor : ℝ) (slices : ℕ)
    (shiftAmount dihedralAngle : ℝ) : List (ℝ × ℝ × ℝ) × List ℕ :=
  let shape := dedupClosed shape2D
  let N := shape.length
  (morphPositions shape scale chord depth startPercent thicknessFactor slices
      shiftAmount dihedralAngle,
   morphIndices N slices)

/-! ## Shared structural lemmas -/

/-- Length of the station block of the position buffer. -/
lemma length_stationBlock (shape : List (ℝ × ℝ)) (slices : ℕ)
    (f : ℕ → (ℝ × ℝ) → ℝ × ℝ × ℝ) :
    ((List.range slices).flatMap fun s => shape.map (f s)).length =
      slices * shape.length := by
  simp [List.length_flatMap, List.map_map, Function.comp_def, List.length_map,
    List.map_const', List.sum_replicate, smul_eq_mul]

/-- The position buffer has `slices·N + 2` vertices. -/
lemma length_morphPositions (shape : List (ℝ × ℝ)) (scale chord depth sp tf : ℝ)
    (slices : ℕ) (sh da : ℝ) :
    (morphPositions shape scale chord depth sp tf slices sh da).length =
      slices * shape.length + 2 := by
  simp [morphPositions, List.length_flatMap, List.map_map, Function.comp_def,
    List.length_map, List.map_const', List.sum_replicate, smul_eq_mul]

/-- Length of the side-wall index block. -/
lemma length_sideIndices (N slices : ℕ) :
    (sideIndices N slices).length = 6 * N * (slices - 1) := by
  simp [sideIndices, List.length_flatMap, List.map_map, Function.comp_def,
    List.length_map, List.map_const', List.sum_replicate, smul_eq_mul]
  ring

/-- Length of the root-cap index block. -/
lemma length_rootCapIndices (N slices : ℕ) :
    (rootCapIndices N slices).length = 3 * N := by
  simp [rootCapIndices, List.length_flatMap, List.map_map, Function.comp_def,
    List.length_map, List.map_const', List.sum_replicate, smul_eq_mul]
  ring

/-- Length of the tip-cap index block. -/
lemma length_tipCapIndices (N slices : ℕ) :
    (tipCapIndices N slices).length = 3 * N := by
  simp [tipCapIndices, List.length_flatMap, List.map_map, Function.comp_def,
    List.length_map, List.map_const', List.sum_replicate, smul_eq_mul]
  ring

/-! ## C2: vertex and triangle counts of the lofted solid -/

/-- C2.  For every de-duplicated cross-section of `N` points and every
`sliceCount ≥ 2`, `createSpanMorphGeometry` produces a position buffer of
exactly `sliceCount·N + 2` vertices and an index buffer of exactly
`2·N·(sliceCount-1)` side triangles plus `2·N` cap triangles (hence
`3·(2·N·(sliceCount-1) + 2·N)` index entries in all). -/
theorem loft_buffer_counts (shape2D : List (ℝ × ℝ)) (scale chord depth sp tf : ℝ)
    (slices : ℕ) (sh da : ℝ) (hs : 2 ≤ slices) :
    ((createSpanMorphGeometry shape2D scale chord depth sp tf slices sh da).1.length =
        slices * (dedupClosed shape2D).length + 2) ∧
      ((createSpanMorphGeometry shape2D scale chord depth sp tf slices sh da).2.length =
        3 * (2 * (dedupClosed shape2D).length * (slices - 1) +
          2 * (dedupClosed shape2D).length)) ∧
      (sideIndices (dedupClosed shape2D).length slices).length =
        3 * (2 * (dedupClosed shape2D).length * (slices - 1)) ∧
      (rootCapIndices (dedupClosed shape2D).length slices).length +
          (tipCapIndices (dedupClosed shape2D).length slices).length =
        3 * (2 * (dedupClosed shape2D).length) := by
  refine ⟨?_, ?_, ?_, ?_⟩
  · exact length_morphPositions _ _ _ _ _ _ _ _ _
  · simp [createSpanMorphGeometry, morphIndices, length_sideIndices,
      length_rootCapIndices, length_tipCapIndices]
    ring
  · rw [length_sideIndices]; ring
  · rw [length_rootCapIndices, length_tipCapIndices]; ring

/-- C2 witness: a concrete 3-point cross-section (no coincident closing
point) lofted with 4 slices gives `4·3 + 2 = 14` vertices and
`3·(2·3·3 + 2·3) = 72` index entries. -/
theorem loft_buffer_counts_witness :
    2 ≤ 4 ∧
      (dedupClosed [((0 : ℝ), (0 : ℝ)), (1, 0), (0, 1)]).length = 3 ∧
      ((createSpanMorphGeometry [((0 : ℝ), (0 : ℝ)), (1, 0), (0, 1)]
          1 1 3 0.5 2 4 0 0).1.length = 14) ∧
      ((createSpanMorphGeometry [((0 : ℝ), (0 : ℝ)), (1, 0), (0, 1)]
          1 1 3 0.5 2 4 0 0).2.length = 72) := by
  have hN : (dedupClosed [((0 : ℝ), (0 : ℝ)), (1, 0), (0, 1)]).length = 3 := by
    rw [dedupClosed]
    norm_num
  have h := loft_buffer_counts [((0 : ℝ), (0 : ℝ)), (1, 0), (0, 1)]
    1 1 3 0.5 2 4 0 0 (by norm_num)
  refine ⟨by norm_num, hN, ?_, ?_⟩
  · rw [h.1, hN]
  · rw [h.2.1, hN]

/-! ## C10: every index references an existing vertex -/

/-- Bound for a station-local vertex index: station `s < K`, corner
`j < N` gives `s·N + j < K·N`. -/
lemma station_index_lt {s K j N : ℕ} (hs : s < K) (hj : j < N) :
    s * N + j < K * N := by
  calc s * N + j < s * N + N := by omega
    _ = (s + 1) * N := by ring
    _ ≤ K * N := Nat.mul_le_mul_right N hs

/-- C10.  For every de-duplicated cross-section of `N ≥ 1` points and every
`slices ≥ 2`, every entry of the index buffer of `createSpanMorphGeometry`
is strictly below `slices·N + 2`, the vertex count of the position
buffer. -/
theorem loft_indices_in_bounds (shape2D : List (ℝ × ℝ))
    (scale chord depth sp tf : ℝ) (slices : ℕ) (sh da : ℝ)
    (hN : 1 ≤ (dedupClosed shape2D).length) (hs : 2 ≤ slices) :
    ∀ i ∈ (createSpanMorphGeometry shape2D scale chord depth sp tf slices sh da).2,
      i < slices * (dedupClosed shape2D).length + 2 := by
  set N := (dedupClosed shape2D).length with hNdef
  intro i hi
  have hmem : i ∈ morphIndices N slices := hi
  rw [morphIndices] at hmem
  have hmod : ∀ j : ℕ, (j + 1) % N < N := fun j => Nat.mod_lt _ (by omega)
  rcases List.mem_append.1 hmem with hmem | hmem
  · rcases List.mem_append.1 hmem with hside | hroot
    · rw [sideIndices] at hside
      rcases List.mem_flatMap.1 hside with ⟨s, hsr, hsj⟩
      rcases List.mem_flatMap.1 hsj with ⟨j, hjr, hj6⟩
      rw [List.mem_range] at hsr hjr
      have h1 : s * N + j < (slices - 1) * N := station_index_lt hsr hjr
      have h2 : (s + 1) * N + j < slices * N :=
        station_index_lt (by omega) hjr
      have h3 : (s + 1) * N + (j + 1) % N < slices * N :=
        station_index_lt (by omega) (hmod j)
      have h4 : s * N + (j + 1) % N < (slices - 1) * N :=
        station_index_lt hsr (hmod j)
      have h5 : (slices - 1) * N ≤ slices * N :=
        Nat.mul_le_mul_right N (by omega)
      simp only [List.mem_cons, List.not_mem_nil, or_false] at hj6
      rcases hj6 with rfl | rfl | rfl | rfl | rfl | rfl <;> omega
    · rw [rootCapIndices] at hroot
      rcases List.mem_flatMap.1 hroot with ⟨j, hjr, hj3⟩
      rw [List.mem_range] at hjr
      have := hmod j
      have hjN : j < N := hjr
      have hNs : N ≤ slices * N := Nat.le_mul_of_pos_left N (by omega)
      simp only [List.mem_cons, List.not_mem_nil, or_false] at hj3
      rcases hj3 with rfl | rfl | rfl <;> omega
  · rw [tipCapIndices] at hmem
    rcases List.mem_flatMap.1 hmem with ⟨j, hjr, hj3⟩
    rw [List.mem_range] at hjr
    have h1 : (slices - 1) * N + j < slices * N := station_index_lt (by omega) hjr
    have h2 : (slices - 1) * N + (j + 1) % N < slices * N :=
      station_index_lt (by omega) (hmod j)
    simp only [List.mem_cons, List.not_mem_nil, or_false] at hj3
    rcases hj3 with rfl | rfl | rfl <;> omega

/-- C10 witness: for the concrete 3-point cross-section with 4 slices,
every index-buffer entry is below `4·3 + 2 = 14`; in particular the first
entry is. -/
theorem loft_indices_in_bounds_witness :
    1 ≤ (dedupClosed [((0 : ℝ), (0 : ℝ)), (1, 0), (0, 1)]).length ∧
      2 ≤ 4 ∧
      ∀ i ∈ (createSpanMorphGeometry [((0 : ℝ), (0 : ℝ)), (1, 0), (0, 1)]
          1 1 3 0.5 2 4 0 0).2,
        i < 4 * (dedupClosed [((0 : ℝ), (0 : ℝ)), (1, 0), (0, 1)]).length + 2 := by
  have hN : (dedupClosed [((0 : ℝ), (0 : ℝ)), (1, 0), (0, 1)]).length = 3 := by
    rw [dedupClosed]
    norm_num
  refine ⟨by rw [hN]; norm_num, by norm_num, ?_⟩
  exact loft_indices_in_bounds [((0 : ℝ), (0 : ℝ)), (1, 0), (0, 1)]
    1 1 3 0.5 2 4 0 0 (by rw [hN]; norm_num) (by norm_num)

/-! ## C5: thicknessFactor 1, no shift, no dihedral gives a pure cylinder -/

/-- C5.  With `thicknessFactor = 1`, `shiftAmount = 0`,
`dihedralAngle = 0`, every station of the lofted solid is the input
cross-section scaled by the fixed visual scale, stations differing only in
their `z`; the two apex vertices sit on the axis at `∓span/2`. -/
theorem cylindrical_loft (shape2D : List (ℝ × ℝ)) (scale chord depth sp : ℝ)
    (slices : ℕ) :
    (createSpanMorphGeometry shape2D scale chord depth sp 1 slices 0 0).1 =
      ((List.range slices).flatMap fun s =>
          (dedupClosed shape2D).map fun p =>
            (p.1 * scale, p.2 * scale, stationZ (depth * scale) slices s))
        ++ [(0, 0, -(depth * scale / 2)), (0, 0, depth * scale / 2)] := by
  have hmp : ∀ sZ t z : ℝ,
      morphPoint scale 1 0 0 sZ t z =
        fun p : ℝ × ℝ => (p.1 * scale, p.2 * scale, z) := by
    intro sZ t z
    funext p
    simp [morphPoint, sub_self, mul_zero, zero_mul, add_zero, mul_one]
  simp [createSpanMorphGeometry, morphPositions, Real.tan_zero, zero_mul,
    mul_zero, hmp]

/-! ## C3: the morph-progress function -/

/-- Unfolding of `stationZ` without its `let` bindings. -/
lemma stationZ_eq (span : ℝ) (slices s : ℕ) :
    stationZ span slices s =
      -(span / 2) +
        (if slices = 1 then (0 : ℝ) else (s : ℝ) / ((slices : ℝ) - 1)) * span := by
  simp [stationZ]

/-- C3.  The station morph progress `t`: zero at or before `startZ`,
clamped linear ramp after it, `1` past `startZ` whenever the denominator
`span/2 - startZ` is nonpositive; for `startPercent < 1` the tip station
has `t = 1`, and for `startPercent = 1` every station (all of which lie
at or before `startZ = span/2`) has `t = 0`. -/

theorem morph_progress_spec (span sp z : ℝ) (slices : ℕ) :
    (z ≤ startZVal span sp → tProgress span (startZVal span sp) z = 0) ∧
      (startZVal span sp < z → span / 2 - startZVal span sp ≤ 0 →
        tProgress span (startZVal span sp) z = 1) ∧
      (startZVal span sp < z → 0 < span / 2 - startZVal span sp →
        tProgress span (startZVal span sp) z =
          max 0 (min 1 ((z - startZVal span sp) / (span / 2 - startZVal span sp)))) ∧
      (0 < span → 0 ≤ sp → sp < 1 → 2 ≤ slices →
        tProgress span (startZVal span sp) (stationZ span slices (slices - 1)) = 1) ∧
      (sp = 1 → 0 < span → ∀ s, s < slices →
        tProgress span (startZVal span sp) (stationZ span slices s) = 0) := by
  refine ⟨?_, ?_, ?_, ?_, ?_⟩
  · intro h
    rw [tProgress, if_pos h]
  · intro hz hd
    rw [tProgress, if_neg (not_le.2 hz), if_pos hd]
  · intro hz hd
    rw [tProgress, if_neg (not_le.2 hz), if_neg (not_le.2 hd)]
  · intro hspan hsp0 hsp1 hsl
    have hclamp : max 0 (min 1 sp) = sp := by
      rw [min_eq_right (le_of_lt hsp1), max_eq_right hsp0]
    have hcast : ((slices - 1 : ℕ) : ℝ) = (slices : ℝ) - 1 := by
      have : 1 ≤ slices := by omega
      push_cast [this]
      ring
    have hne : (slices : ℝ) - 1 ≠ 0 := by
      have : (2 : ℝ) ≤ (slices : ℝ) := by exact_mod_cast hsl
      intro hcontra
      nlinarith
    have hz : stationZ span slices (slices - 1) = span / 2 := by
      rw [stationZ_eq]
      rw [if_neg (by omega : ¬slices = 1), hcast, div_self hne]
      ring
    have hstart : startZVal span sp = -(span / 2) + sp * span := by
      rw [startZVal, hclamp]
    have hdenom : 0 < span / 2 - startZVal span sp := by
      rw [hstart]
      nlinarith
    have hgt : startZVal span sp < span / 2 := by
      rw [hstart]
      nlinarith
    rw [hz, tProgress, if_neg (not_le.2 hgt), if_neg (not_le.2 hdenom),
      div_self (ne_of_gt hdenom)]
    norm_num
  · intro hsp hspan s hslt
    have hstart : startZVal span sp = span / 2 := by
      rw [startZVal, hsp]
      norm_num
      ring
    have halpha : (if slices = 1 then (0 : ℝ) else (s : ℝ) / ((slices : ℝ) - 1)) ≤ 1 := by
      by_cases h1 : slices = 1
      · rw [if_pos h1]; norm_num
      · rw [if_neg h1]
        have h2 : 2 ≤ slices := by omega
        have hs1 : (s : ℝ) ≤ (slices : ℝ) - 1 := by
          have : s ≤ slices - 1 := by omega
          have hc : ((slices - 1 : ℕ) : ℝ) = (slices : ℝ) - 1 := by
            have h1s : 1 ≤ slices := by omega
            push_cast [h1s]
            ring
          rw [← hc]
          exact_mod_cast this
        have hpos : (0 : ℝ) < (slices : ℝ) - 1 := by
          have : (2 : ℝ) ≤ (slices : ℝ) := by exact_mod_cast h2
          linarith
        rw [div_le_one hpos]
        exact hs1
    have halpha0 : 0 ≤ (if slices = 1 then (0 : ℝ) else (s : ℝ) / ((slices : ℝ) - 1)) := by
      by_cases h1 : slices = 1
      · rw [if_pos h1]
      · rw [if_neg h1]
        have h2 : 2 ≤ slices := by omega
        have hpos : (0 : ℝ) < (slices : ℝ) - 1 := by
          have : (2 : ℝ) ≤ (slices : ℝ) := by exact_mod_cast h2
          linarith
        positivity
    have hzle : stationZ span slices s ≤ startZVal span sp := by
      rw [stationZ_eq, hstart]
      nlinarith [halpha, halpha0]
    rw [tProgress, if_pos hzle]

/-- C3 witness: with `span = 2`, `startPercent = 1/2`, six concrete
instantiations of the five conjuncts, e.g. the station at `z = -1` has
`t = 0` and the tip station of a 3-slice loft has `t = 1`. -/
theorem morph_progress_spec_witness :
    tProgress 2 (startZVal 2 (1 / 2)) (-1) = 0 ∧
      tProgress 2 (startZVal 2 (1 / 2)) (stationZ 2 3 2) = 1 ∧
      tProgress 2 (startZVal 2 1) (stationZ 2 3 1) = 0 := by
  refine ⟨?_, ?_, ?_⟩
  · apply (morph_progress_spec 2 (1 / 2) (-1) 3).1
    rw [startZVal]
    norm_num
  · exact (morph_progress_spec 2 (1 / 2) 0 3).2.2.2.1 (by norm_num) (by norm_num)
      (by norm_num) (by norm_num)
  · exact (morph_progress_spec 2 1 0 3).2.2.2.2 rfl (by norm_num) 1 (by norm_num)

/-! ## C7: 5-digit table selection, fallback and k1 scaling -/

/-- C7.  The 5-digit generator's table step: the standard table is keyed by
`{5,10,15,20,25}` and the reflex table by `{10,15,20,25}`; the entry for
position code `P` is the table entry at key `P·5` when that key is
tabulated and the `15`-entry otherwise (never a failure); `k1` is the
entry's `k1` scaled by exactly `Cl/0.3` with `Cl = L·3/20` (the `max 0`
guard in the source never bites, the scale being nonnegative). -/
theorem naca5_table_selection (L P : ℕ) :
    standardTable.map Prod.fst = [5, 10, 15, 20, 25] ∧
      reflexTable.map Prod.fst = [10, 15, 20, 25] ∧
      (∀ b : Bool,
        ((if b then reflexTable else standardTable).lookup (P * 5)).elim
          (naca5Entry P b = naca5Entry 3 b) (fun e => naca5Entry P b = e)) ∧
      (∀ b : Bool,
        naca5K1 L P b = (naca5Entry P b).k1 * (((L : ℚ) * 3 / 20) / 0.3)) ∧
      naca5Entry 3 true = ⟨0.30, 0.2170, some 0.00677⟩ ∧
      naca5Entry 3 false = ⟨0.30, 0.2025, none⟩ := by
  refine ⟨by decide, by decide, ?_, ?_, by rfl, by rfl⟩
  · intro b
    cases b with
    | false =>
      cases h : standardTable.lookup (P * 5) with
      | none => simp [naca5Entry, h]; rfl
      | some e => simp [naca5Entry, h]
    | true =>
      cases h : reflexTable.lookup (P * 5) with
      | none => simp [naca5Entry, h]; rfl
      | some e => simp [naca5Entry, h]
  · intro b
    rw [naca5K1, max_eq_right (by positivity)]

/-! ## C9: value of the thickness polynomial at the edges -/

/-- C9 counterexample: the claim "yt(0) is not exactly zero" is false —
`yt(0) = 0` exactly for every thickness and chord, since every term of the
bracket (including `0.2969·√0`) vanishes at `x = 0`. -/
theorem yt_at_zero_counterexample :
    ¬ ∃ t chord : ℝ, 0 < t ∧ 0 < chord ∧ yt4 t chord 0 ≠ 0 := by
  rintro ⟨t, chord, -, -, hne⟩
  apply hne
  rw [yt4, zero_div, Real.sqrt_zero]
  norm_num

/-- C9 amended.  `yt(0)` is exactly zero; the nonzero edge value of the
thickness polynomial is at the trailing edge: `yt(chord) =
(t·chord/0.2)·0.0021 ≠ 0` (the open-trailing-edge property), for every
`t > 0` and `chord > 0`. -/
theorem yt_edge_values (t chord : ℝ) (ht : 0 < t) (hc : 0 < chord) :
    yt4 t chord 0 = 0 ∧ yt4 t chord chord = t * chord / 0.2 * 0.0021 ∧
      yt4 t chord chord ≠ 0 := by
  have h0 : yt4 t chord 0 = 0 := by
    rw [yt4, zero_div, Real.sqrt_zero]
    norm_num
  have hch : yt4 t chord chord = t * chord / 0.2 * 0.0021 := by
    rw [yt4, div_self (ne_of_gt hc), Real.sqrt_one]
    norm_num
  refine ⟨h0, hch, ?_⟩
  rw [hch]
  positivity

/-- C9 amended witness: for `t = 0.12`, `chord = 1` (the NACA 0012 at unit
chord), `yt(0) = 0` and `yt(chord) ≠ 0`. -/
theorem yt_edge_values_witness :
    (0 : ℝ) < 0.12 ∧ (0 : ℝ) < 1 ∧
      (yt4 0.12 1 0 = 0 ∧ yt4 0.12 1 1 = 0.12 * 1 / 0.2 * 0.0021 ∧
        yt4 0.12 1 1 ≠ 0) :=
  ⟨by norm_num, by norm_num, yt_edge_values 0.12 1 (by norm_num) (by norm_num)⟩

/-! ## C6: the 4-digit parse does not guard NaN -/

/-- C6 counterexample: a code of non-digit characters parses to `NaN`
fields (modelled `none`), not to zero digits — so the fields are neither
always finite nor is a failing digit treated as `0`. -/
theorem parseNACA_nan_counterexample :
    parseNACA "AAAA" = (none, none, none) ∧
      parseNACA "0000" = (some 0, some 0, some 0) ∧
      parseNACA "AAAA" ≠ parseNACA "0000" := by
  have hA : parseNACA "AAAA" = (none, none, none) := by
    have h : padStartZero 4 "AAAA".data = ['A', 'A', 'A', 'A'] := by decide
    simp only [parseNACA, h]
    have e1 : jsParseInt (['A', 'A', 'A', 'A'].take 1) = none := by decide
    have e2 : jsParseInt ((['A', 'A', 'A', 'A'].drop 1).take 1) = none := by decide
    have e3 : jsParseInt ((['A', 'A', 'A', 'A'].drop 2).take 2) = none := by decide
    rw [e1, e2, e3]
    rfl
  have h0 : parseNACA "0000" = (some 0, some 0, some 0) := by
    have h : padStartZero 4 "0000".data = ['0', '0', '0', '0'] := by decide
    simp only [parseNACA, h]
    have e1 : jsParseInt (['0', '0', '0', '0'].take 1) = some 0 := by decide
    have e2 : jsParseInt ((['0', '0', '0', '0'].drop 1).take 1) = some 0 := by decide
    have e3 : jsParseInt ((['0', '0', '0', '0'].drop 2).take 2) = some 0 := by decide
    rw [e1, e2, e3]
    norm_num
  refine ⟨hA, h0, ?_⟩
  rw [hA, h0]
  simp

/-- Any list of at least four elements splits off its first four. -/
lemma exists_four_cons (l : List Char) (h : 4 ≤ l.length) :
    ∃ a b c d rest, l = a :: b :: c :: d :: rest := by
  rcases l with - | ⟨a, - | ⟨b, - | ⟨c, - | ⟨d, rest⟩⟩⟩⟩ <;>
    simp only [List.length] at h <;> first
    | omega
    | exact ⟨a, b, c, d, rest, rfl⟩

/-- The padded code has at least four characters. -/
lemma four_le_padStartZero (l : List Char) : 4 ≤ (padStartZero 4 l).length := by
  rw [padStartZero]
  simp only [List.length_append, List.length_replicate]
  omega

/-- A digit character's code point lies in `[48, 57]`. -/
lemma isDigit_toNat {c : Char} (h : c.isDigit = true) :
    48 ≤ c.toNat ∧ c.toNat ≤ 57 := by
  simpa [Char.isDigit] using h

/-- No whitespace code point is a digit. -/
lemma jsWhitespace_not_digit {c : Char} (h : jsWhitespace c = true) :
    c.isDigit = false := by
  by_contra hc
  rw [Bool.not_eq_false] at hc
  obtain ⟨h1, h2⟩ := isDigit_toNat hc
  simp [jsWhitespace] at h
  omega

/-- A digit run starting at `c` has a value exactly when `c` is a digit. -/
lemma digitRunVal_ne_none (c : Char) (rest : List Char) :
    digitRunVal (c :: rest) ≠ none ↔ c.isDigit = true := by
  cases hc : c.isDigit <;> simp [digitRunVal, List.takeWhile_cons, hc]

/-- Existential form of `digitRunVal_ne_none`. -/
lemma digitRunVal_exists (c : Char) (rest : List Char) :
    (∃ x, digitRunVal (c :: rest) = some x) ↔ c.isDigit = true := by
  rw [← Option.ne_none_iff_exists']
  exact digitRunVal_ne_none c rest

/-- `parseInt` of a single character is finite exactly when the character
is a digit (lone whitespace or a lone sign parses no digits). -/
lemma jsParseInt_single (c : Char) :
    jsParseInt [c] ≠ none ↔ c.isDigit = true := by
  by_cases hw : jsWhitespace c = true
  · have hd := jsWhitespace_not_digit hw
    simp [jsParseInt, List.dropWhile_cons, hw, hd]
  · by_cases hp : c = '+'
    · subst hp
      simp [jsParseInt, List.dropWhile_cons, hw, digitRunVal]
    · by_cases hm : c = '-'
      · subst hm
        simp [jsParseInt, List.dropWhile_cons, hw, digitRunVal]
      · simp [jsParseInt, List.dropWhile_cons, hw, hp, hm, digitRunVal_ne_none, digitRunVal_exists]

/-- `parseInt` of a two-character slice is finite exactly when the first
character is a digit, or the first character is whitespace or a sign and
the second is a digit. -/
lemma jsParseInt_pair (c d : Char) :
    jsParseInt [c, d] ≠ none ↔
      (c.isDigit = true ∨
        ((jsWhitespace c = true ∨ c = '+' ∨ c = '-') ∧ d.isDigit = true)) := by
  by_cases hw : jsWhitespace c = true
  · have hcd := jsWhitespace_not_digit hw
    by_cases hwd : jsWhitespace d = true
    · have hdd := jsWhitespace_not_digit hwd
      simp [jsParseInt, List.dropWhile_cons, hw, hwd, hcd, hdd]
    · by_cases hp : d = '+'
      · subst hp
        simp [jsParseInt, List.dropWhile_cons, hw, hwd, hcd, digitRunVal]
      · by_cases hm : d = '-'
        · subst hm
          simp [jsParseInt, List.dropWhile_cons, hw, hwd, hcd, digitRunVal]
        · simp [jsParseInt, List.dropWhile_cons, hw, hwd, hcd, hp, hm,
            digitRunVal_ne_none, digitRunVal_exists]
  · by_cases hp : c = '+'
    · subst hp
      simp [jsParseInt, List.dropWhile_cons, hw, digitRunVal_ne_none, digitRunVal_exists]
    · by_cases hm : c = '-'
      · subst hm
        simp [jsParseInt, List.dropWhile_cons, hw, digitRunVal_ne_none, digitRunVal_exists]
      · simp [jsParseInt, List.dropWhile_cons, hw, hp, hm, digitRunVal_ne_none, digitRunVal_exists]

/-- C6 amended.  `parseNACA` pads the code on the left to at least four
characters (longer codes are NOT truncated; the fields are read from the
first four characters), and a digit that fails to parse yields `NaN`
(there is no guard turning it into 0): `m` resp. `p` is finite exactly
when the padded character at position 0 resp. 1 is a decimal digit, and
`t` is finite exactly when position 2 is a digit, or position 2 is
whitespace or a sign and position 3 is a digit (`parseInt`'s
whitespace/sign acceptance on the two-character slice). -/
theorem parseNACA_finite_iff (code : String) :
    ((parseNACA code).1 ≠ none ↔
        ((padStartZero 4 code.data).getD 0 ' ').isDigit = true) ∧
      ((parseNACA code).2.1 ≠ none ↔
        ((padStartZero 4 code.data).getD 1 ' ').isDigit = true) ∧
      ((parseNACA code).2.2 ≠ none ↔
        (((padStartZero 4 code.data).getD 2 ' ').isDigit = true ∨
          ((jsWhitespace ((padStartZero 4 code.data).getD 2 ' ') = true ∨
              (padStartZero 4 code.data).getD 2 ' ' = '+' ∨
              (padStartZero 4 code.data).getD 2 ' ' = '-') ∧
            ((padStartZero 4 code.data).getD 3 ' ').isDigit = true))) := by
  obtain ⟨a, b, c, d, rest, hsplit⟩ :=
    exists_four_cons (padStartZero 4 code.data) (four_le_padStartZero code.data)
  have h1 : (a :: b :: c :: d :: rest).take 1 = [a] := rfl
  have h2 : ((a :: b :: c :: d :: rest).drop 1).take 1 = [b] := rfl
  have h3 : ((a :: b :: c :: d :: rest).drop 2).take 2 = [c, d] := rfl
  have g0 : (a :: b :: c :: d :: rest).getD 0 ' ' = a := rfl
  have g1 : (a :: b :: c :: d :: rest).getD 1 ' ' = b := rfl
  have g2 : (a :: b :: c :: d :: rest).getD 2 ' ' = c := rfl
  have g3 : (a :: b :: c :: d :: rest).getD 3 ' ' = d := rfl
  simp only [parseNACA, hsplit, h1, h2, h3, g0, g1, g2, g3]
  refine ⟨?_, ?_, ?_⟩
  · rw [Ne, Option.map_eq_none']
    exact jsParseInt_single a
  · rw [Ne, Option.map_eq_none']
    exact jsParseInt_single b
  · rw [Ne, Option.map_eq_none']
    exact jsParseInt_pair c d

/-! ## Index structure of the generated coordinate lists -/

/-- Both generators produce `upper ++ lower.reverse` mapped by the
centering shift; this is their common list skeleton. -/
noncomputable def coordsOf (u l : ℕ → ℝ × ℝ) (sh : ℝ × ℝ → ℝ × ℝ) (n : ℕ) :
    List (ℝ × ℝ) :=
  (((List.range (n + 1)).map u) ++ ((List.range (n + 1)).map l).reverse).map sh

/-- `naca4Points` is a `coordsOf` skeleton. -/
lemma naca4Points_eq_coordsOf (m p t chord : ℝ) (n : ℕ) :
    naca4Points m p t chord n =
      coordsOf (upperPoint m p t chord n) (lowerPoint m p t chord n)
        (shiftPt chord) n := rfl

/-- The skeleton has `2(n+1)` points. -/
lemma coordsOf_length (u l : ℕ → ℝ × ℝ) (sh : ℝ × ℝ → ℝ × ℝ) (n : ℕ) :
    (coordsOf u l sh n).length = 2 * (n + 1) := by
  simp [coordsOf]
  ring

/-- Point `i ≤ n` of the skeleton is the shifted `i`-th upper point. -/
lemma coordsOf_get_upper (u l : ℕ → ℝ × ℝ) (sh : ℝ × ℝ → ℝ × ℝ) {n i : ℕ}
    (h : i ≤ n) : (coordsOf u l sh n)[i]? = some (sh (u i)) := by
  have hi : i < n + 1 := by omega
  simp [coordsOf, List.getElem?_map, List.getElem?_append, List.getElem?_range, hi]

/-- Point `2n+1-i` of the skeleton (for `i ≤ n`) is the shifted `i`-th
lower point: the lower surface is laid down in reverse. -/
lemma coordsOf_get_lower (u l : ℕ → ℝ × ℝ) (sh : ℝ × ℝ → ℝ × ℝ) {n i : ℕ}
    (h : i ≤ n) : (coordsOf u l sh n)[2 * n + 1 - i]? = some (sh (l i)) := by
  have hlen : ((List.range (n + 1)).map u).length = n + 1 := by simp
  rw [coordsOf, List.getElem?_map,
    List.getElem?_append_right (by rw [hlen]; omega)]
  rw [hlen]
  have h1 : 2 * n + 1 - i - (n + 1) = n - i := by omega
  rw [h1]
  have key : (((List.range (n + 1)).map l).reverse)[n - i]? = some (l i) := by
    rw [List.getElem?_reverse (by simp; omega)]
    have h2 : ((List.range (n + 1)).map l).length - 1 - (n - i) = i := by
      simp
      omega
    rw [h2, List.getElem?_map]
    simp [List.getElem?_range, Nat.lt_succ_of_le h]
  rw [key]
  rfl

/-! ## Pointwise evaluations of the generators -/

/-- At sample `i = 0` the chordwise coordinate is exactly `0` (the leading
edge): `cos 0 = 1`. -/
lemma xSample_zero (chord : ℝ) (n : ℕ) : xSample chord n 0 = 0 := by
  simp [xSample]

/-- At sample `i = n` (with `n ≥ 1`) the chordwise coordinate is exactly
`chord` (the trailing edge): `cos π = -1`. -/
lemma xSample_last (chord : ℝ) {n : ℕ} (hn : n ≠ 0) :
    xSample chord n n = chord := by
  rw [xSample, div_self (Nat.cast_ne_zero.2 hn)]
  rw [one_mul, Real.cos_pi]
  norm_num

/-- The thickness half-width vanishes exactly at the leading edge. -/
lemma yt4_zero (t chord : ℝ) : yt4 t chord 0 = 0 := by
  rw [yt4, zero_div, Real.sqrt_zero]
  norm_num

/-- At the trailing edge the bracket sums to `0.0021` (the open trailing
edge of the NACA polynomial). -/
lemma yt4_at_chord (t : ℝ) {chord : ℝ} (hc : chord ≠ 0) :
    yt4 t chord chord = t * chord / 0.2 * 0.0021 := by
  rw [yt4, div_self hc, Real.sqrt_one]
  norm_num

/-- The 4-digit upper point at the leading edge: `x = 0`, `yt = 0`. -/
lemma upperPoint_zero (m p t chord : ℝ) (n : ℕ) :
    upperPoint m p t chord n 0 = (0, (camber4 m p chord 0).1) := by
  simp [upperPoint, xSample_zero, yt4_zero]

/-- The 4-digit lower point at the leading edge coincides with the upper
point there. -/
lemma lowerPoint_zero (m p t chord : ℝ) (n : ℕ) :
    lowerPoint m p t chord n 0 = (0, (camber4 m p chord 0).1) := by
  simp [lowerPoint, xSample_zero, yt4_zero]

/-- The 5-digit upper point at the leading edge. -/
lemma upperPoint5_zero (k1 k2 r t chord : ℝ) (n : ℕ) :
    upperPoint5 k1 k2 r t chord n 0 = (0, (yc5 k1 k2 r 0).1 * chord) := by
  simp [upperPoint5, xSample_zero, yt4_zero, zero_div]

/-- The 5-digit lower point at the leading edge coincides with the upper
point there. -/
lemma lowerPoint5_zero (k1 k2 r t chord : ℝ) (n : ℕ) :
    lowerPoint5 k1 k2 r t chord n 0 = (0, (yc5 k1 k2 r 0).1 * chord) := by
  simp [lowerPoint5, xSample_zero, yt4_zero, zero_div]

/-- When the upper and lower surfaces agree at sample 0, the skeleton's
first and last points are the same point. -/
lemma coordsOf_closed (u l : ℕ → ℝ × ℝ) (sh : ℝ × ℝ → ℝ × ℝ) (n : ℕ)
    (hul : u 0 = l 0) :
    ∃ q, (coordsOf u l sh n).head? = some q ∧
      (coordsOf u l sh n).getLast? = some q := by
  refine ⟨sh (u 0), ?_, ?_⟩
  · rw [List.head?_eq_getElem?]
    exact coordsOf_get_upper u l sh (Nat.zero_le n)
  · rw [List.getLast?_eq_getElem?, coordsOf_length]
    have h : 2 * (n + 1) - 1 = 2 * n + 1 - 0 := by omega
    rw [h, hul]
    exact coordsOf_get_lower u l sh (Nat.zero_le n)

/-! ## C8: the generated cross-section closes up -/

/-- C8.  For every designation accepted by the generator dispatch, every
chord > 0 and every `n ≥ 1`, the cross-section is a closed polygon: its
first and last points agree within `1e-9` in both coordinates (they are in
fact the same point, both surfaces starting at the leading edge). -/
theorem crossSection_closed (code : String) (chord : ℝ) (n : ℕ)
    (hchord : 0 < chord) (hn : 1 ≤ n) (pts : List (ℝ × ℝ))
    (hgen : generateCrossSection code chord n = some pts) :
    ∃ qf ql, pts.head? = some qf ∧ pts.getLast? = some ql ∧
      |qf.1 - ql.1| < 1e-9 ∧ |qf.2 - ql.2| < 1e-9 := by
  suffices h : ∃ q, pts.head? = some q ∧ pts.getLast? = some q by
    obtain ⟨q, h1, h2⟩ := h
    exact ⟨q, q, h1, h2, by norm_num, by norm_num⟩
  rw [generateCrossSection] at hgen
  by_cases h5 : (digitsOnly code).length = 5
  · rw [if_pos h5] at hgen
    obtain rfl : naca5Coordinates code chord n = pts :=
      Option.some_injective _ hgen
    exact coordsOf_closed _ _ _ n
      (by rw [upperPoint5_zero, lowerPoint5_zero])
  · rw [if_neg h5] at hgen
    simp only [naca4Coordinates] at hgen
    rcases hp : parseNACA code with ⟨mo, po, wo⟩
    rw [hp] at hgen
    rcases mo with - | mq
    · simp at hgen
    rcases po with - | pq
    · simp at hgen
    rcases wo with - | tq
    · simp at hgen
    obtain rfl : naca4Points (mq : ℝ) (pq : ℝ) (tq : ℝ) chord n = pts :=
      Option.some_injective _ hgen
    exact coordsOf_closed _ _ _ n
      (by rw [upperPoint_zero, lowerPoint_zero])

/-- `parseNACA "2412"` evaluates to `m = 0.02`, `p = 0.4`, `t = 0.12`. -/
lemma parseNACA_2412 :
    parseNACA "2412" = (some (1 / 50), some (2 / 5), some (3 / 25)) := by
  have h : padStartZero 4 "2412".data = ['2', '4', '1', '2'] := by decide
  simp only [parseNACA, h]
  have e1 : jsParseInt (['2', '4', '1', '2'].take 1) = some 2 := by decide
  have e2 : jsParseInt ((['2', '4', '1', '2'].drop 1).take 1) = some 4 := by decide
  have e3 : jsParseInt ((['2', '4', '1', '2'].drop 2).take 2) = some 12 := by decide
  rw [e1, e2, e3]
  norm_num

/-- The dispatch sends "2412" to the 4-digit generator. -/
lemma generateCrossSection_2412 (chord : ℝ) (n : ℕ) :
    generateCrossSection "2412" chord n =
      some (naca4Points ((1 / 50 : ℚ) : ℝ) ((2 / 5 : ℚ) : ℝ) ((3 / 25 : ℚ) : ℝ)
        chord n) := by
  have h4 : ¬(digitsOnly "2412").length = 5 := by decide
  rw [generateCrossSection, if_neg h4]
  simp only [naca4Coordinates, parseNACA_2412]

/-- C8 witness: the NACA 2412 cross-section at chord 1 with `n = 1` closes
up. -/
theorem crossSection_closed_witness :
    (0 : ℝ) < 1 ∧ 1 ≤ 1 ∧
      ∃ qf ql,
        (naca4Points ((1 / 50 : ℚ) : ℝ) ((2 / 5 : ℚ) : ℝ) ((3 / 25 : ℚ) : ℝ)
            1 1).head? = some qf ∧
          (naca4Points ((1 / 50 : ℚ) : ℝ) ((2 / 5 : ℚ) : ℝ) ((3 / 25 : ℚ) : ℝ)
            1 1).getLast? = some ql ∧
          |qf.1 - ql.1| < 1e-9 ∧ |qf.2 - ql.2| < 1e-9 :=
  ⟨by norm_num, le_refl 1,
    crossSection_closed "2412" 1 1 (by norm_num) (le_refl 1) _
      (generateCrossSection_2412 1 1)⟩

/-- With `p = 0` the camber branch gives zero value and slope, so the
upper point is `(x, yt)`. -/
lemma upperPoint_symm (m t chord : ℝ) (n i : ℕ) :
    upperPoint m 0 t chord n i =
      (xSample chord n i, yt4 t chord (xSample chord n i)) := by
  simp [upperPoint, camber4]

/-- With `p = 0` the lower point is `(x, -yt)`. -/
lemma lowerPoint_symm (m t chord : ℝ) (n i : ℕ) :
    lowerPoint m 0 t chord n i =
      (xSample chord n i, -yt4 t chord (xSample chord n i)) := by
  simp [lowerPoint, camber4]

/-! ## C4: symmetric airfoils from `camberPosition = 0` -/

/-- C4.  For every 4-digit code whose second digit parses to `0`
(camber position 0), the cross-section is symmetric about the chord line:
the point at index `i` and the point at index `2n+1-i` share their
x-coordinate and have opposite y-coordinates, so for every upper point a
lower point with identical x and negated y occurs in the list. -/
theorem naca4_symmetric (code : String) (chord : ℝ) (n : ℕ) (mq tq : ℚ)
    (hparse : parseNACA code = (some mq, some 0, some tq)) :
    ∃ pts, naca4Coordinates code chord n = some pts ∧
      ∀ i, i ≤ n → ∃ x y,
        pts[i]? = some (x, y) ∧ pts[2 * n + 1 - i]? = some (x, -y) ∧
          (x, -y) ∈ pts := by
  refine ⟨naca4Points (mq : ℝ) ((0 : ℚ) : ℝ) (tq : ℝ) chord n, ?_, ?_⟩
  · simp only [naca4Coordinates, hparse]
  · intro i hi
    have hup : (naca4Points (mq : ℝ) ((0 : ℚ) : ℝ) (tq : ℝ) chord n)[i]? =
        some (xSample chord n i - chord / 2,
          yt4 (tq : ℝ) chord (xSample chord n i)) := by
      rw [naca4Points_eq_coordsOf, coordsOf_get_upper _ _ _ hi]
      rw [Rat.cast_zero, upperPoint_symm]
      rfl
    have hlow : (naca4Points (mq : ℝ) ((0 : ℚ) : ℝ) (tq : ℝ) chord n)[2 * n + 1 - i]? =
        some (xSample chord n i - chord / 2,
          -yt4 (tq : ℝ) chord (xSample chord n i)) := by
      rw [naca4Points_eq_coordsOf, coordsOf_get_lower _ _ _ hi]
      rw [Rat.cast_zero, lowerPoint_symm]
      rfl
    exact ⟨xSample chord n i - chord / 2,
      yt4 (tq : ℝ) chord (xSample chord n i), hup, hlow,
      List.getElem?_mem hlow⟩

/-- `parseNACA "0012"` evaluates to `m = 0`, `p = 0`, `t = 0.12`. -/
lemma parseNACA_0012 :
    parseNACA "0012" = (some 0, some 0, some (3 / 25)) := by
  have h : padStartZero 4 "0012".data = ['0', '0', '1', '2'] := by decide
  simp only [parseNACA, h]
  have e1 : jsParseInt (['0', '0', '1', '2'].take 1) = some 0 := by decide
  have e2 : jsParseInt ((['0', '0', '1', '2'].drop 1).take 1) = some 0 := by decide
  have e3 : jsParseInt ((['0', '0', '1', '2'].drop 2).take 2) = some 12 := by decide
  rw [e1, e2, e3]
  norm_num

/-- C4 witness: the symmetric NACA 0012 section at chord 1, `n = 2`. -/
theorem naca4_symmetric_witness :
    parseNACA "0012" = (some 0, some 0, some (3 / 25)) ∧
      ∃ pts, naca4Coordinates "0012" 1 2 = some pts ∧
        ∀ i, i ≤ 2 → ∃ x y,
          pts[i]? = some (x, y) ∧ pts[2 * 2 + 1 - i]? = some (x, -y) ∧
            (x, -y) ∈ pts :=
  ⟨parseNACA_0012, naca4_symmetric "0012" 1 2 0 (3 / 25) parseNACA_0012⟩

/-- The x-coordinate of the upper point at the trailing-edge sample:
`chord` minus the (small) thickness correction `yt(chord)·sin θ`. -/
lemma upperPoint_last_fst (m p t : ℝ) {chord : ℝ} {n : ℕ} (hn : n ≠ 0)
    (hc : chord ≠ 0) :
    (upperPoint m p t chord n n).1 =
      chord - t * chord / 0.2 * 0.0021 *
        Real.sin (Real.arctan ((camber4 m p chord chord).2)) := by
  simp only [upperPoint]
  rw [xSample_last chord hn, yt4_at_chord t hc]

/-! ## C1: output size, ordering and centering of the 4-digit generator -/

/-- C1.  For every 4-digit code with finite parsed fields, chord > 0 and
`n ≥ 1`: the output has exactly `2(n+1)` points, position `i ≤ n` holds the
`i`-th upper point (leading to trailing edge) and position `2n+1-i` the
`i`-th lower point (so the lower surface runs trailing to leading edge),
each x shifted by `-chord/2`; and `generateCrossSection('2412', 1, 4)`
yields 10 points whose first point has `x = -0.5` exactly and whose
trailing-edge point (index 4) has `x` within `0.01` of `+0.5`. -/
theorem naca4_output_structure :
    (∀ (code : String) (chord : ℝ) (n : ℕ) (mq pq tq : ℚ),
        0 < chord → 1 ≤ n → parseNACA code = (some mq, some pq, some tq) →
        naca4Coordinates code chord n =
            some (naca4Points (mq : ℝ) (pq : ℝ) (tq : ℝ) chord n) ∧
          (naca4Points (mq : ℝ) (pq : ℝ) (tq : ℝ) chord n).length = 2 * (n + 1) ∧
          ∀ i, i ≤ n →
            (naca4Points (mq : ℝ) (pq : ℝ) (tq : ℝ) chord n)[i]? =
                some (shiftPt chord
                  (upperPoint (mq : ℝ) (pq : ℝ) (tq : ℝ) chord n i)) ∧
              (naca4Points (mq : ℝ) (pq : ℝ) (tq : ℝ) chord n)[2 * n + 1 - i]? =
                some (shiftPt chord
                  (lowerPoint (mq : ℝ) (pq : ℝ) (tq : ℝ) chord n i))) ∧
      ((generateCrossSection "2412" 1 4).elim False fun pts =>
        pts.length = 10 ∧
          (∃ q0, pts[0]? = some q0 ∧ q0.1 = -(1 / 2 : ℝ)) ∧
          ∃ q4, pts[4]? = some q4 ∧ |q4.1 - 1 / 2| < 1 / 100) := by
  constructor
  · intro code chord n mq pq tq hchord hn hparse
    refine ⟨by simp only [naca4Coordinates, hparse], ?_, ?_⟩
    · rw [naca4Points_eq_coordsOf, coordsOf_length]
    · intro i hi
      exact ⟨by rw [naca4Points_eq_coordsOf, coordsOf_get_upper _ _ _ hi],
        by rw [naca4Points_eq_coordsOf, coordsOf_get_lower _ _ _ hi]⟩
  · rw [generateCrossSection_2412]
    refine ⟨?_, ?_, ?_⟩
    · rw [naca4Points_eq_coordsOf, coordsOf_length]
    · refine ⟨shiftPt 1 (upperPoint ((1 / 50 : ℚ) : ℝ) ((2 / 5 : ℚ) : ℝ)
        ((3 / 25 : ℚ) : ℝ) 1 4 0), ?_, ?_⟩
      · rw [naca4Points_eq_coordsOf]
        exact coordsOf_get_upper _ _ _ (by norm_num)
      · rw [upperPoint_zero]
        show (0 : ℝ) - 1 / 2 = -(1 / 2 : ℝ)
        norm_num
    · refine ⟨shiftPt 1 (upperPoint ((1 / 50 : ℚ) : ℝ) ((2 / 5 : ℚ) : ℝ)
        ((3 / 25 : ℚ) : ℝ) 1 4 4), ?_, ?_⟩
      · rw [naca4Points_eq_coordsOf]
        exact coordsOf_get_upper _ _ _ (by norm_num)
      · have hfst :
            (upperPoint ((1 / 50 : ℚ) : ℝ) ((2 / 5 : ℚ) : ℝ) ((3 / 25 : ℚ) : ℝ)
                1 4 4).1 =
              1 - ((3 / 25 : ℚ) : ℝ) * 1 / 0.2 * 0.0021 *
                Real.sin (Real.arctan
                  ((camber4 ((1 / 50 : ℚ) : ℝ) ((2 / 5 : ℚ) : ℝ) 1 1).2)) :=
          upperPoint_last_fst _ _ _ (by norm_num) (by norm_num)
        have hdiff :
            (shiftPt 1 (upperPoint ((1 / 50 : ℚ) : ℝ) ((2 / 5 : ℚ) : ℝ)
                ((3 / 25 : ℚ) : ℝ) 1 4 4)).1 - 1 / 2 =
              -(((3 / 25 : ℚ) : ℝ) * 1 / 0.2 * 0.0021 *
                Real.sin (Real.arctan
                  ((camber4 ((1 / 50 : ℚ) : ℝ) ((2 / 5 : ℚ) : ℝ) 1 1).2))) := by
          rw [shiftPt, hfst]
          ring
        rw [hdiff, abs_neg, abs_mul]
        have hsin : |Real.sin (Real.arctan
            ((camber4 ((1 / 50 : ℚ) : ℝ) ((2 / 5 : ℚ) : ℝ) 1 1).2))| ≤ 1 :=
          abs_le.2 ⟨Real.neg_one_le_sin _, Real.sin_le_one _⟩
        have hval : |((3 / 25 : ℚ) : ℝ) * 1 / 0.2 * 0.0021| = 63 / 50000 := by
          push_cast
          rw [abs_of_nonneg (by norm_num)]
          norm_num
        calc |((3 / 25 : ℚ) : ℝ) * 1 / 0.2 * 0.0021| *
              |Real.sin (Real.arctan
                ((camber4 ((1 / 50 : ℚ) : ℝ) ((2 / 5 : ℚ) : ℝ) 1 1).2))|
            ≤ |((3 / 25 : ℚ) : ℝ) * 1 / 0.2 * 0.0021| * 1 :=
              mul_le_mul_of_nonneg_left hsin (abs_nonneg _)
          _ = 63 / 50000 := by rw [hval]; ring
          _ < 1 / 100 := by norm_num

/-- C1 witness: the theorem instantiated at code "2412", chord 1, `n = 4`,
giving exactly `2·(4+1) = 10` points. -/
theorem naca4_output_structure_witness :
    (0 : ℝ) < 1 ∧ 1 ≤ 4 ∧
      parseNACA "2412" = (some (1 / 50), some (2 / 5), some (3 / 25)) ∧
      naca4Coordinates "2412" 1 4 =
        some (naca4Points ((1 / 50 : ℚ) : ℝ) ((2 / 5 : ℚ) : ℝ)
          ((3 / 25 : ℚ) : ℝ) 1 4) ∧
      (naca4Points ((1 / 50 : ℚ) : ℝ) ((2 / 5 : ℚ) : ℝ) ((3 / 25 : ℚ) : ℝ)
        1 4).length = 2 * (4 + 1) := by
  have h := (naca4_output_structure.1 "2412" 1 4 (1 / 50) (2 / 5) (3 / 25)
    (by norm_num) (by norm_num) parseNACA_2412)
  exact ⟨by norm_num, by norm_num, parseNACA_2412, h.1, h.2.1⟩

end AlgorithmicWing
